import Mathlib

/-!
Verification development for `vllm/bench/utils/auto_batch_selector.py`.

The Python module is shallowly embedded: Python dicts become association
lists, the dedup `set` becomes a list of keys in insertion order (with the
enumeration handed to `list(...)` made explicit where its order matters),
Python `float` metric values become rationals (only order comparisons are
performed on them), and the file-reading / subprocess boundaries become
explicit parameters (file contents as character lists, the per-probe
benchmark outcome as an `Option TestRecord`).
-/

namespace AutoBatchSelector

/-- `TestRecord` (auto_batch_selector.py): one measured data point.
Latency metrics are optional; Python floats are modelled as rationals,
which is faithful here because the program only compares them. -/
structure TestRecord where
  input_len : Int
  output_len : Int
  concurrency : Int
  mean_ttft_ms : Option ℚ := none
  mean_tpot_ms : Option ℚ := none
  mean_e2el_ms : Option ℚ := none
deriving DecidableEq, Repr

/-- Scenario key `(input_len, output_len)` used by the best map. -/
abbrev Scenario := Int × Int

/-- Dedup key `(input_len, output_len, concurrency)` used by the seen set. -/
abbrev DedupKey := Int × Int × Int

/-- The `io_key` computed in `update_best` / `_process_record`. -/
def TestRecord.ioKey (r : TestRecord) : Scenario := (r.input_len, r.output_len)

/-- The `key` computed in `add_record`. -/
def TestRecord.dedupKey (r : TestRecord) : DedupKey :=
  (r.input_len, r.output_len, r.concurrency)

/-- The threshold dict produced by `parse_threshold`, restricted to the three
keys `satisfy` consults (`ttft`, `tpot`, `e2el`); other keys never influence
any behaviour of the program. -/
structure Threshold where
  ttft : Option ℚ := none
  tpot : Option ℚ := none
  e2el : Option ℚ := none
deriving DecidableEq, Repr

/-- One iteration of the `for thr_key, rec_attr in checks.items()` loop of
`satisfy`: the check fails exactly when the metric is constrained, the record
value is present (`is not None`), and the value exceeds the ceiling. -/
def metricOk (recValue ceiling : Option ℚ) : Bool :=
  match ceiling, recValue with
  | some c, some v => !(v > c)
  | _, _ => true

/-- `satisfy(record, threshold)`: `False` iff some constrained metric is
present in the record and exceeds its ceiling.  (The early `return True` for
an empty dict is behaviourally subsumed: with no constraints every
`metricOk` is `true`.) -/
def satisfy (r : TestRecord) (t : Threshold) : Bool :=
  metricOk r.mean_ttft_ms t.ttft &&
  metricOk r.mean_tpot_ms t.tpot &&
  metricOk r.mean_e2el_ms t.e2el

/-! ### Python dict as an association list -/

/-- Lookup in a Python dict modelled as an association list with unique keys
(first match wins). -/
def dictGet {K V : Type} [DecidableEq K] : List (K × V) → K → Option V
  | [], _ => none
  | (k', v') :: t, k => if k' = k then some v' else dictGet t k

/-- Python dict assignment `m[k] = v`: replace in place if the key exists,
otherwise append. -/
def dictSet {K V : Type} [DecidableEq K] : List (K × V) → K → V → List (K × V)
  | [], k, v => [(k, v)]
  | (k', v') :: t, k, v =>
    if k' = k then (k, v) :: t else (k', v') :: dictSet t k v

/-! ### ResultManager -/

/-- `ResultManager._cleanup_seen`, applied to one concrete enumeration
`list(self.seen)` of the dedup set.  Python `set` iteration order is
implementation-defined (hash order, not insertion order), so the enumeration
is an explicit argument: the code keeps `seen_list[len(seen_list)//2:]`,
i.e. drops the first half of whatever enumeration `list(...)` produced. -/
def cleanup_seen (enum : List DedupKey) (cap : Nat) : List DedupKey :=
  if enum.length > cap then enum.drop (enum.length / 2) else enum

/-- `ResultManager`: the dedup set (its contents as a list — only
membership matters; the order is whatever the last enumeration/cleanup
produced) plus the per-scenario best map (an `OrderedDict`). -/
structure ResultManager where
  seen : List DedupKey := []
  best : List (Scenario × TestRecord) := []
  max_seen_size : Nat := 10000
deriving DecidableEq, Repr

/-- `ResultManager.add_record`: returns whether the record's dedup key was
new, adding it (and running `_cleanup_seen`) when it was.  `_cleanup_seen`
operates on `list(self.seen)`, an enumeration of the Python `set` in
implementation-defined hash-table order — NOT insertion order — so the
model takes that enumeration as the explicit argument `enum`: the list
CPython would produce for the set right after `self.seen.add(key)` (some
permutation of `s.seen ++ [key]`; the just-added key can land anywhere in
it, including the evicted half). -/
def ResultManager.add_record (s : ResultManager) (r : TestRecord)
    (enum : List DedupKey) : Bool × ResultManager :=
  if r.dedupKey ∈ s.seen then (false, s)
  else
    (true, { s with seen := cleanup_seen enum s.max_seen_size })

/-- `ResultManager.update_best`: if the record satisfies the threshold and
(no best exists for its scenario, or it has strictly greater concurrency),
install it and return `(True, old_best)`; otherwise `(False, None)`. -/
def ResultManager.update_best (s : ResultManager) (r : TestRecord)
    (t : Threshold) : (Bool × Option TestRecord) × ResultManager :=
  if satisfy r t then
    match dictGet s.best r.ioKey with
    | none => ((true, none), { s with best := dictSet s.best r.ioKey r })
    | some old_best =>
      if r.concurrency > old_best.concurrency then
        ((true, some old_best), { s with best := dictSet s.best r.ioKey r })
      else ((false, none), s)
  else ((false, none), s)

/-- `ResultManager.get_best`. -/
def ResultManager.get_best (s : ResultManager) (k : Scenario) :
    Option TestRecord :=
  dictGet s.best k

/-! ### OutputWriter (the durable best store) -/

/-- `OutputWriter`: in-memory cache `best_records` of the persisted
best-record file, one record per scenario. -/
structure OutputWriter where
  best_records : List (Scenario × TestRecord) := []
deriving DecidableEq, Repr

/-- The per-line body of `OutputWriter._load_existing_bests`: keep the
record with the larger concurrency for an already-seen scenario key. -/
def loadLine (w : OutputWriter) (r : TestRecord) : OutputWriter :=
  match dictGet w.best_records r.ioKey with
  | some cur =>
    if r.concurrency > cur.concurrency then
      { best_records := dictSet w.best_records r.ioKey r }
    else w
  | none => { best_records := dictSet w.best_records r.ioKey r }

/-- `OutputWriter._load_existing_bests`, over the successfully decoded
records of the pre-existing file, in file order. -/
def load_existing_bests (records : List TestRecord) : OutputWriter :=
  records.foldl loadLine {}

/-- `OutputWriter.write_record`: install the record iff its scenario is new
or its concurrency strictly exceeds the stored one (then the file is
rewritten; the file contents always mirror `best_records`). -/
def OutputWriter.write_record (w : OutputWriter) (r : TestRecord) :
    OutputWriter :=
  match dictGet w.best_records r.ioKey with
  | none => { best_records := dictSet w.best_records r.ioKey r }
  | some cur =>
    if r.concurrency > cur.concurrency then
      { best_records := dictSet w.best_records r.ioKey r }
    else w

/-- `OutputWriter.get_best_for_io`. -/
def OutputWriter.get_best_for_io (w : OutputWriter) (k : Scenario) :
    Option TestRecord :=
  dictGet w.best_records k

/-! ### JsonTailReader -/

/-- Split a character stream into the lines `f.readlines()` yields (with the
terminators already removed; a trailing chunk not ending in a newline is the
last element). -/
def splitLinesAux : List Char → List Char → List (List Char)
  | [], acc => [acc.reverse]
  | c :: rest, acc =>
    if c = '\n' then acc.reverse :: splitLinesAux rest []
    else splitLinesAux rest (c :: acc)

/-- All lines of a character stream. -/
def splitLines (s : List Char) : List (List Char) := splitLinesAux s []

/-- Python `str.strip()` on a line: drop leading and trailing whitespace. -/
def stripChars (l : List Char) : List Char :=
  ((l.dropWhile Char.isWhitespace).reverse.dropWhile Char.isWhitespace).reverse

/-- `JsonTailReader.read_new_lines` on a file whose current content is `s`,
with tracked offset `pos`; `dec` stands for `json.loads` on one stripped
line (`none` on a decode failure).  Mirrors the source: reset the position
if the file shrank, read everything from the position to the end of file,
set the position to `f.tell()` — the end of file — and yield each stripped,
non-blank, decodable line. -/
def read_new_lines (dec : List Char → Option TestRecord) (s : List Char)
    (pos : Nat) : Nat × List TestRecord :=
  let pos := if s.length < pos then 0 else pos
  let chunk := s.drop pos
  (s.length,
    (splitLines chunk).filterMap fun line =>
      let line := stripChars line
      if line = [] then none else dec line)

/-! ### SignalWriter and MonitorMode -/

/-- The payload `SignalWriter.write_best` serializes (the wall-clock
`timestamp` field is omitted from the model). -/
structure SignalPayload where
  input_len : Int
  output_len : Int
  best_batch : Int
deriving DecidableEq, Repr

/-- The payload built from a record in `SignalWriter.write_best`:
`best_batch` is the record's concurrency. -/
def SignalWriter.payloadOf (r : TestRecord) : SignalPayload :=
  { input_len := r.input_len, output_len := r.output_len,
    best_batch := r.concurrency }

/-- The mutable state `MonitorMode._process_record` acts on: the tracker,
the best store, and the sequence of payloads written to the signal file. -/
structure MonitorState where
  rm : ResultManager
  writer : OutputWriter := {}
  signals : List SignalPayload := []
deriving DecidableEq, Repr

/-- `MonitorMode._process_record` on an already-decoded record: skip
duplicates; otherwise `update_best`; on update persist the record via the
writer; on no-update, if a best exists for the scenario and its concurrency
is strictly below the candidate's, announce that best on the signal
channel.  Returns the source's boolean result.  `enum` is the set
enumeration `add_record`'s cleanup acts on (see `ResultManager.add_record`). -/
def process_record (t : Threshold) (m : MonitorState) (r : TestRecord)
    (enum : List DedupKey) : Bool × MonitorState :=
  let (fresh, rm₁) := m.rm.add_record r enum
  if !fresh then (false, m)
  else
    let ((updated, _old_best), rm₂) := rm₁.update_best r t
    if updated then
      (true, { m with rm := rm₂, writer := m.writer.write_record r })
    else
      match rm₂.get_best r.ioKey with
      | some current_best =>
        if current_best.concurrency < r.concurrency then
          let sigs := m.signals ++ [SignalWriter.payloadOf current_best]
          (false, { m with rm := rm₂, signals := sigs })
        else (false, { m with rm := rm₂ })
      | none => (false, { m with rm := rm₂ })

/-- The command-line arguments relevant to constructing `MonitorMode`
(`--max-seen-size`; the path arguments play no role in the model). -/
structure Args where
  max_seen_size : Nat
deriving DecidableEq, Repr

/-- `MonitorMode.__init__` starting from an empty output file: it constructs
the tracker as `ResultManager()` — with the default cap of 10000 — without
forwarding `args.max_seen_size`. -/
def monitor_init (_args : Args) : MonitorState :=
  { rm := {} }

/-! ### BinarySearchMode -/

/-- The loop state of `BinarySearchMode.run`: the integer bounds, the
running `best_record`, and the best store. -/
structure BinState where
  lo : Int
  hi : Int
  best_record : Option TestRecord := none
  writer : OutputWriter := {}
deriving DecidableEq, Repr

/-- One iteration body of `BinarySearchMode.run` at `mid = (lo+hi)//2`,
as a function of what `get_latest_result()` yields for the iteration: the
LAST record of the log as re-read from offset 0 (the loop calls
`reader.reset()` before each probe), `none` exactly when that re-read log
holds no record.  `none` narrows `hi` and leaves `lo` alone; a satisfying
result is persisted and moves `lo` up; a non-satisfying result narrows
`hi`.  Which record the re-read log ends in — in particular after a failed
external command — is resolved by the finer model `bin_step_io` below. -/
def bin_step (t : Threshold) (s : BinState)
    (probeResult : Option TestRecord) : BinState :=
  let mid := (s.lo + s.hi) / 2
  match probeResult with
  | none => { s with hi := mid - 1 }
  | some record =>
    if satisfy record t then
      { s with best_record := some record,
               writer := s.writer.write_record record, lo := mid + 1 }
    else { s with hi := mid - 1 }

/-- The `while lo <= hi` loop of `BinarySearchMode.run`, with explicit fuel
(each iteration shrinks `hi + 1 - lo`, so `bin_run` supplies enough fuel
for the loop to reach `lo > hi`).  Also counts the iterations, i.e. the
external probes issued. -/
def bin_loop (t : Threshold) (probe : Int → Option TestRecord) :
    Nat → BinState → BinState × Nat
  | 0, s => (s, 0)
  | fuel + 1, s =>
    if s.lo ≤ s.hi then
      let s' := bin_step t s (probe ((s.lo + s.hi) / 2))
      let r := bin_loop t probe fuel s'
      (r.1, r.2 + 1)
    else (s, 0)

/-- `BinarySearchMode.run` from bounds `[lo, hi]` with an empty best store:
runs the loop to completion. -/
def bin_run (t : Threshold) (probe : Int → Option TestRecord)
    (lo hi : Int) : BinState × Nat :=
  bin_loop t probe (hi + 1 - lo).toNat { lo := lo, hi := hi }

/-- Whether the probe at concurrency `c` yields a threshold-satisfying
result (a failed probe counts as non-satisfying). -/
def satAt (t : Threshold) (probe : Int → Option TestRecord) (c : Int) :
    Bool :=
  match probe c with
  | some r => satisfy r t
  | none => false

/-- The loop state of `BinarySearchMode.run` together with the append-only
log file the external benchmark command writes to (as its decoded
records, in file order). -/
structure BinIoState where
  lo : Int
  hi : Int
  log : List TestRecord := []
  best_record : Option TestRecord := none
  writer : OutputWriter := {}
deriving DecidableEq, Repr

/-- One iteration of `BinarySearchMode.run` at `mid = (lo+hi)//2`, down to
the reader: `appended` is whatever records `run_batch(mid)`'s external
command appended to the log — `[]` when the command failed (its non-zero
exit is swallowed by `run_batch`, which merely logs it) or wrote nothing.
Because the loop calls `reader.reset()` before the probe,
`get_latest_result()` re-reads the WHOLE append-only log and keeps the
last record: only an empty log yields "no result" (`hi := mid - 1`); a
failed command over a non-empty log re-drains the previous probe's stale
last record and branches on its satisfaction like any result. -/
def bin_step_io (t : Threshold) (s : BinIoState)
    (appended : List TestRecord) : BinIoState :=
  let mid := (s.lo + s.hi) / 2
  let log := s.log ++ appended
  match log.getLast? with
  | none => { s with log := log, hi := mid - 1 }
  | some record =>
    if satisfy record t then
      { s with log := log, best_record := some record,
               writer := s.writer.write_record record, lo := mid + 1 }
    else { s with log := log, hi := mid - 1 }

/-! ### Derived runs and loop bookkeeping -/

/-- Feeding a sequence of records through `update_best` in arrival order
(the best-map part of a monitor run). -/
def run_updates (t : Threshold) (s : ResultManager) (l : List TestRecord) :
    ResultManager :=
  l.foldl (fun s r => (s.update_best r t).2) s

/-- Feeding a sequence of decoded records through
`MonitorMode._process_record` in arrival order.  `enumOf` chooses, from the
current set contents and the key being added, the enumeration
`list(self.seen)` produces for that call. -/
def run_monitor (enumOf : List DedupKey → DedupKey → List DedupKey)
    (t : Threshold) (m : MonitorState) (l : List TestRecord) :
    MonitorState :=
  l.foldl (fun m r => (process_record t m r (enumOf m.rm.seen r.dedupKey)).2) m

/-- The insertion-order enumeration — one possible (permutation-valid)
behavior of `list(self.seen)`, used for concrete runs whose outcome does
not depend on the enumeration (e.g. runs in which no cleanup triggers). -/
def insertionEnum : List DedupKey → DedupKey → List DedupKey :=
  fun seen key => seen ++ [key]

/-- The quantity each binary-search iteration strictly decreases. -/
def binMeasure (s : BinState) : Nat := (s.hi + 1 - s.lo).toNat

/-- The loop invariant of `BinarySearchMode.run` starting from bounds
`[lo₀, hi₀]`: everything above `hi` in range has been found non-satisfying,
and the running best, when set, is the probe result at `lo - 1`, which was
found satisfying. -/
def binSearchInv (t : Threshold) (probe : Int → Option TestRecord)
    (lo₀ hi₀ : Int) (s : BinState) : Prop :=
  lo₀ ≤ s.lo ∧ s.hi ≤ hi₀ ∧ s.lo ≤ s.hi + 1 ∧
  (∀ c, s.hi < c → c ≤ hi₀ → satAt t probe c = false) ∧
  ((s.best_record = none ∧ s.lo = lo₀) ∨
   (s.best_record = probe (s.lo - 1) ∧ satAt t probe (s.lo - 1) = true ∧
    lo₀ ≤ s.lo - 1))

/-! ### Concrete inputs used by witnesses and counterexamples -/

/-- The parsed form of the threshold string `"ttft:100"`. -/
def threshold_ttft100 : Threshold := { ttft := some 100 }

/-- A record with measured `mean_ttft_ms = 150`. -/
def record_ttft150 : TestRecord :=
  { input_len := 128, output_len := 128, concurrency := 32,
    mean_ttft_ms := some 150 }

/-- A record with measured `mean_ttft_ms = 90`. -/
def record_ttft90 : TestRecord :=
  { input_len := 128, output_len := 128, concurrency := 32,
    mean_ttft_ms := some 90 }

/-- The deterministic stub probe of the binary-search convergence property:
at concurrency `c` the harness reports `mean_ttft_ms = 50` when `c ≤ 64` and
`150` otherwise, so under `"ttft:100"` it satisfies iff `c ≤ 64`. -/
def stubRecord (c : Int) : TestRecord :=
  { input_len := 128, output_len := 128, concurrency := c,
    mean_ttft_ms := some (if c ≤ 64 then 50 else 150) }

/-- The stub probe always produces exactly one summary record. -/
def stubProbe (c : Int) : Option TestRecord := some (stubRecord c)

/-- A metric-free record for scenario `(64, 64)` at concurrency `c`. -/
def recAt (c : Int) : TestRecord :=
  { input_len := 64, output_len := 64, concurrency := c }

/-- Six records with pairwise distinct dedup keys. -/
def sixRecords : List TestRecord :=
  [recAt 1, recAt 2, recAt 3, recAt 4, recAt 5, recAt 6]

/-- The persisted best record `{(128,128): concurrency=16}` a restarted
best store finds in its file. -/
def seeded16 : TestRecord :=
  { input_len := 128, output_len := 128, concurrency := 16,
    mean_ttft_ms := some 50 }

/-- A satisfying `{(128,128): concurrency=8}` fed after the restart. -/
def lower8 : TestRecord :=
  { input_len := 128, output_len := 128, concurrency := 8,
    mean_ttft_ms := some 40 }

/-- A monitor state whose tracker already holds best `concurrency = 4` for
scenario `(64, 64)`. -/
def monitorExample : MonitorState :=
  { rm := { seen := [], best := [((64, 64), recAt 4)] } }

/-- A fresh candidate for scenario `(64, 64)` at concurrency `8` whose
`mean_ttft_ms = 150` fails the `"ttft:100"` threshold. -/
def rejectedCandidate : TestRecord :=
  { input_len := 64, output_len := 64, concurrency := 8,
    mean_ttft_ms := some 150 }

/-- A tracker at its cap: `max_seen_size = 2` with two keys already seen. -/
def overflowTracker : ResultManager :=
  { seen := [(1, 1, 1), (2, 2, 2)], best := [], max_seen_size := 2 }

/-- A record whose dedup key is `(3, 3, 3)`. -/
def thirdRecord : TestRecord :=
  { input_len := 3, output_len := 3, concurrency := 3 }

/-- The enumeration CPython's `list(...)` actually produces for the set
`{(1,1,1), (2,2,2), (3,3,3)}` built by adding the keys in that order: the
just-added `(3,3,3)` comes FIRST, i.e. inside the evicted half. -/
def cpythonEnum3 : List DedupKey := [(3, 3, 3), (1, 1, 1), (2, 2, 2)]

/-- A binary-search state right after a successful probe of `mid = 64`
over bounds `[1, 128]`: `lo = 65`, `hi = 128`, and the append-only log
still holds that probe's satisfying record. -/
def staleState : BinIoState :=
  { lo := 65, hi := 128, log := [stubRecord 64],
    best_record := some (stubRecord 64) }

/-- The record a completed line `R1` decodes to in the tail-reader example. -/
def sampleRecord : TestRecord := { input_len := 1, output_len := 2, concurrency := 3 }

/-- A stand-in for `json.loads` in the tail-reader example: only the
completed line `R1` decodes. -/
def sampleDecoder (l : List Char) : Option TestRecord :=
  if l = ['R', '1'] then some sampleRecord else none

/-- File content ending in a partial write: one complete line `R1` and the
partial tail `R` (no terminating newline yet). -/
def partialFile : List Char := ['R', '1', '\n', 'R']

/-- The same file once the writer completed the tail to a second `R1` line. -/
def completedFile : List Char := ['R', '1', '\n', 'R', '1', '\n']

/-! ## Helper lemmas -/

theorem dictGet_dictSet_self {K V : Type} [DecidableEq K]
    (m : List (K × V)) (k : K) (v : V) : dictGet (dictSet m k v) k = some v := by
  induction m with
  | nil => simp [dictSet, dictGet]
  | cons hd tl ih =>
    obtain ⟨k', v'⟩ := hd
    by_cases h : k' = k <;> simp [dictSet, dictGet, h, ih]

theorem dictGet_dictSet_ne {K V : Type} [DecidableEq K]
    (m : List (K × V)) (k k' : K) (v : V) (h : k' ≠ k) :
    dictGet (dictSet m k v) k' = dictGet m k' := by
  induction m with
  | nil => simp [dictSet, dictGet, Ne.symm h]
  | cons hd tl ih =>
    obtain ⟨k₀, v₀⟩ := hd
    by_cases h₀ : k₀ = k
    · subst h₀
      simp [dictSet, dictGet, Ne.symm h]
    · simp only [dictSet, if_neg h₀]
      by_cases h₁ : k₀ = k' <;> simp [dictGet, h₁, ih]

theorem dictGet_dictSet_cases {K V : Type} [DecidableEq K]
    (m : List (K × V)) (k k' : K) (v b : V)
    (h : dictGet (dictSet m k v) k' = some b) :
    (k' = k ∧ b = v) ∨ dictGet m k' = some b := by
  by_cases hk : k' = k
  · subst hk
    rw [dictGet_dictSet_self] at h
    exact Or.inl ⟨rfl, (Option.some.injEq ..).mp h.symm⟩
  · rw [dictGet_dictSet_ne _ _ _ _ hk] at h
    exact Or.inr h

theorem metricOk_iff (v c : Option ℚ) :
    metricOk v c = true ↔ ∀ x y, c = some x → v = some y → y ≤ x := by
  cases c with
  | none => simp [metricOk]
  | some x =>
    cases v with
    | none => simp [metricOk]
    | some y => simp [metricOk, not_lt]

theorem update_best_accepted_iff (s : ResultManager) (r : TestRecord)
    (t : Threshold) :
    (s.update_best r t).1.1 = true ↔
      (satisfy r t = true ∧
       ∀ b, dictGet s.best r.ioKey = some b →
         b.concurrency < r.concurrency) := by
  unfold ResultManager.update_best
  by_cases hs : satisfy r t = true
  · cases hg : dictGet s.best r.ioKey with
    | none => simp [hs, hg]
    | some old =>
      by_cases hc : old.concurrency < r.concurrency <;> simp [hs, hg, hc]
  · simp [hs]

theorem update_best_mono (s : ResultManager) (r : TestRecord) (t : Threshold)
    (k : Scenario) (b : TestRecord) (hb : dictGet s.best k = some b) :
    ∃ b', dictGet (s.update_best r t).2.best k = some b' ∧
      b.concurrency ≤ b'.concurrency := by
  unfold ResultManager.update_best
  by_cases hs : satisfy r t = true
  · cases hg : dictGet s.best r.ioKey with
    | none =>
      have hk : k ≠ r.ioKey := by
        rintro rfl
        rw [hb] at hg
        cases hg
      exact ⟨b, by simp [hs, hg, dictGet_dictSet_ne _ _ _ _ hk, hb], le_refl _⟩
    | some old =>
      by_cases hc : old.concurrency < r.concurrency
      · by_cases hk : k = r.ioKey
        · subst hk
          rw [hb] at hg
          obtain rfl : b = old := Option.some_inj.mp hg
          exact ⟨r, by simp [hs, hb, hc, dictGet_dictSet_self], le_of_lt hc⟩
        · exact ⟨b, by simp [hs, hg, hc, dictGet_dictSet_ne _ _ _ _ hk, hb],
            le_refl _⟩
      · exact ⟨b, by simp [hs, hg, hc, hb], le_refl _⟩
  · exact ⟨b, by simp [hs, hb], le_refl _⟩

theorem run_updates_mono (t : Threshold) (l : List TestRecord) :
    ∀ (s : ResultManager) (k : Scenario) (b : TestRecord),
      dictGet s.best k = some b →
      ∃ b', dictGet (run_updates t s l).best k = some b' ∧
        b.concurrency ≤ b'.concurrency := by
  induction l with
  | nil => exact fun s k b hb => ⟨b, hb, le_refl _⟩
  | cons r rest ih =>
    intro s k b hb
    obtain ⟨b₁, hb₁, h₁⟩ := update_best_mono s r t k b hb
    obtain ⟨b₂, hb₂, h₂⟩ := ih _ k b₁ hb₁
    exact ⟨b₂, by simpa [run_updates] using hb₂, le_trans h₁ h₂⟩

theorem write_record_no_downgrade (w : OutputWriter) (r b : TestRecord)
    (hb : dictGet w.best_records r.ioKey = some b)
    (hc : ¬ b.concurrency < r.concurrency) :
    w.write_record r = w := by
  unfold OutputWriter.write_record
  rw [hb]
  simp [hc]

theorem loadLine_ge (w : OutputWriter) (x : TestRecord) (k : Scenario)
    (m : Int)
    (h : ∃ b, dictGet w.best_records k = some b ∧ m ≤ b.concurrency) :
    ∃ b, dictGet (loadLine w x).best_records k = some b ∧
      m ≤ b.concurrency := by
  obtain ⟨b, hb, hm⟩ := h
  unfold loadLine
  cases hg : dictGet w.best_records x.ioKey with
  | none =>
    have hk : k ≠ x.ioKey := by
      rintro rfl
      rw [hb] at hg
      cases hg
    exact ⟨b, by simp [dictGet_dictSet_ne _ _ _ _ hk, hb], hm⟩
  | some cur =>
    by_cases hc : cur.concurrency < x.concurrency
    · by_cases hk : k = x.ioKey
      · subst hk
        rw [hb] at hg
        obtain rfl : b = cur := Option.some_inj.mp hg
        exact ⟨x, by simp [hc, dictGet_dictSet_self], le_of_lt (lt_of_le_of_lt hm hc)⟩
      · exact ⟨b, by simp [hc, dictGet_dictSet_ne _ _ _ _ hk, hb], hm⟩
    · exact ⟨b, by simp [hc, hb], hm⟩

theorem loadLine_self (w : OutputWriter) (x : TestRecord) :
    ∃ b, dictGet (loadLine w x).best_records x.ioKey = some b ∧
      x.concurrency ≤ b.concurrency := by
  unfold loadLine
  cases hg : dictGet w.best_records x.ioKey with
  | none => exact ⟨x, by simp [dictGet_dictSet_self], le_refl _⟩
  | some cur =>
    by_cases hc : cur.concurrency < x.concurrency
    · exact ⟨x, by simp [hc, dictGet_dictSet_self], le_refl _⟩
    · exact ⟨cur, by simp [hc, hg], not_lt.mp hc⟩

theorem load_foldl_ge (l : List TestRecord) :
    ∀ (w : OutputWriter) (k : Scenario) (m : Int),
      (∃ b, dictGet w.best_records k = some b ∧ m ≤ b.concurrency) →
      ∃ b, dictGet (l.foldl loadLine w).best_records k = some b ∧
        m ≤ b.concurrency := by
  induction l with
  | nil => exact fun w k m h => h
  | cons x rest ih =>
    intro w k m h
    exact ih _ k m (loadLine_ge w x k m h)

theorem load_mem_ge (l : List TestRecord) :
    ∀ (w : OutputWriter) (r : TestRecord), r ∈ l →
      ∃ b, dictGet (l.foldl loadLine w).best_records r.ioKey = some b ∧
        r.concurrency ≤ b.concurrency := by
  induction l with
  | nil => simp
  | cons x rest ih =>
    intro w r hr
    rcases List.mem_cons.mp hr with rfl | hr'
    · exact load_foldl_ge rest _ r.ioKey r.concurrency (loadLine_self w r)
    · exact ih _ r hr'

theorem loadLine_get_cases (w : OutputWriter) (x : TestRecord) (k : Scenario)
    (b : TestRecord)
    (h : dictGet (loadLine w x).best_records k = some b) :
    (k = x.ioKey ∧ b = x) ∨ dictGet w.best_records k = some b := by
  unfold loadLine at h
  cases hg : dictGet w.best_records x.ioKey with
  | none =>
    rw [hg] at h
    exact dictGet_dictSet_cases _ _ _ _ _ h
  | some cur =>
    rw [hg] at h
    dsimp only at h
    by_cases hc : cur.concurrency < x.concurrency
    · rw [if_pos hc] at h
      exact dictGet_dictSet_cases _ _ _ _ _ h
    · rw [if_neg hc] at h
      exact Or.inr h

theorem load_foldl_sound (l : List TestRecord) :
    ∀ (w : OutputWriter) (k : Scenario) (b : TestRecord),
      dictGet (l.foldl loadLine w).best_records k = some b →
      (b ∈ l ∧ b.ioKey = k) ∨ dictGet w.best_records k = some b := by
  induction l with
  | nil => exact fun w k b h => Or.inr h
  | cons x rest ih =>
    intro w k b h
    rcases ih _ k b h with ⟨hmem, hkey⟩ | hold
    · exact Or.inl ⟨List.mem_cons_of_mem _ hmem, hkey⟩
    · rcases loadLine_get_cases w x k b hold with ⟨rfl, rfl⟩ | hw
      · exact Or.inl ⟨List.mem_cons_self _ _, rfl⟩
      · exact Or.inr hw

/-! ## Claim theorems -/

/-- C2: a record satisfies a threshold config iff every constrained metric
among ttft/tpot/e2el that is present (non-`None`) in the record is at most
its ceiling; absent metrics and absent constraints never block, and the
empty config is satisfied by every record.  Concretely, under `"ttft:100"`
a record with `mean_ttft_ms = 150` is never accepted as best by
`update_best` (in any tracker state), while one with `mean_ttft_ms = 90`
satisfies the config. -/
theorem satisfy_characterization :
    (∀ (r : TestRecord) (t : Threshold),
      satisfy r t = true ↔
        ((∀ c v, t.ttft = some c → r.mean_ttft_ms = some v → v ≤ c) ∧
         (∀ c v, t.tpot = some c → r.mean_tpot_ms = some v → v ≤ c) ∧
         (∀ c v, t.e2el = some c → r.mean_e2el_ms = some v → v ≤ c))) ∧
    (∀ r : TestRecord, satisfy r {} = true) ∧
    (∀ s : ResultManager,
       s.update_best record_ttft150 threshold_ttft100 = ((false, none), s)) ∧
    satisfy record_ttft90 threshold_ttft100 = true := by
  refine ⟨?_, ?_, ?_, by decide⟩
  · intro r t
    simp only [satisfy, Bool.and_eq_true, metricOk_iff]
    constructor
    · rintro ⟨⟨h1, h2⟩, h3⟩
      exact ⟨fun c v hc hv => h1 c v hc hv, fun c v hc hv => h2 c v hc hv,
        fun c v hc hv => h3 c v hc hv⟩
    · rintro ⟨h1, h2, h3⟩
      exact ⟨⟨fun c v hc hv => h1 c v hc hv, fun c v hc hv => h2 c v hc hv⟩,
        fun c v hc hv => h3 c v hc hv⟩
  · intro r
    have hm : ∀ v : Option ℚ, metricOk v none = true := fun v => by
      cases v <;> rfl
    simp [satisfy, hm]
  · intro s
    have h150 : satisfy record_ttft150 threshold_ttft100 = false := by decide
    unfold ResultManager.update_best
    simp [h150]

/-- C7 (refuting the unconditional claim): tracker at cap 2 with keys
(1,1,1), (2,2,2) already seen; submitting the record with key (3,3,3)
twice returns `True` BOTH times.  CPython's `list(...)` of the grown set
(verified) enumerates the just-added key FIRST — `cpythonEnum3`, a
permutation of the set's contents — so `_cleanup_seen` evicts it with the
first half, and the second submission finds the key unseen again. -/
theorem add_record_second_submission_true :
    thirdRecord.dedupKey ∉ overflowTracker.seen ∧
    cpythonEnum3.Perm (overflowTracker.seen ++ [thirdRecord.dedupKey]) ∧
    (overflowTracker.add_record thirdRecord cpythonEnum3).1 = true ∧
    thirdRecord.dedupKey
      ∉ (overflowTracker.add_record thirdRecord cpythonEnum3).2.seen ∧
    ((overflowTracker.add_record thirdRecord cpythonEnum3).2.add_record
        thirdRecord cpythonEnum3).1 = true := by
  decide

/-- C7 (amended): submitting the same record twice to `add_record` returns
`True` on the first call, and neither call ever touches the best map; the
second call returns `False` — with the duplicate leaving the whole state
unchanged — exactly on the condition that the record's key survived the
first call's cleanup.  It always survives when no eviction triggers (the
enumeration fits the cap), but the cleanup acts on the hash-order set
enumeration, which may place the just-added key in the evicted half, and
then the second call returns `True` again. -/
theorem add_record_dedup_conditional (s : ResultManager) (r : TestRecord)
    (enum enum₂ : List DedupKey) (hnew : r.dedupKey ∉ s.seen) :
    (s.add_record r enum).1 = true ∧
    (s.add_record r enum).2.best = s.best ∧
    ((s.add_record r enum).2.add_record r enum₂).2.best = s.best ∧
    (r.dedupKey ∈ (s.add_record r enum).2.seen →
       ((s.add_record r enum).2.add_record r enum₂).1 = false ∧
       ((s.add_record r enum).2.add_record r enum₂).2
         = (s.add_record r enum).2) ∧
    (enum.length ≤ s.max_seen_size → r.dedupKey ∈ enum →
       r.dedupKey ∈ (s.add_record r enum).2.seen) := by
  refine ⟨?_, ?_, ?_, ?_, ?_⟩
  · simp [ResultManager.add_record, hnew]
  · simp [ResultManager.add_record, hnew]
  · by_cases hmem : r.dedupKey ∈ cleanup_seen enum s.max_seen_size <;>
      simp [ResultManager.add_record, hnew, hmem]
  · intro hmem
    simp only [ResultManager.add_record, if_neg hnew] at hmem ⊢
    simp [ResultManager.add_record, hmem]
  · intro hcap hmem
    simp only [ResultManager.add_record, if_neg hnew]
    have hno : ¬ enum.length > s.max_seen_size := by omega
    simpa [cleanup_seen, hno] using hmem

/-- Witness for C7 at the empty tracker, a concrete record and the
insertion-order enumeration (no eviction triggers, so the key survives
and the second call returns `False`). -/
theorem add_record_dedup_conditional_witness :
    (({} : ResultManager).add_record (recAt 1) [(64, 64, 1)]).1 = true ∧
    ((({} : ResultManager).add_record (recAt 1)
        [(64, 64, 1)]).2.add_record (recAt 1) [(64, 64, 1)]).1 = false ∧
    (({} : ResultManager).add_record (recAt 1) [(64, 64, 1)]).2.best
      = ({} : ResultManager).best := by
  have h := add_record_dedup_conditional {} (recAt 1) [(64, 64, 1)]
    [(64, 64, 1)] (by decide)
  exact ⟨h.1, (h.2.2.2.1 (by decide)).1, h.2.1⟩

/-- C6: the best store seeded from a pre-existing file holds, per scenario,
a record from the file whose concurrency is maximal among the file's
records for that scenario; `write_record` of a record not exceeding the
stored concurrency is a no-op; in particular seeded with
`{(128,128): concurrency=16}` and then put a satisfying
`{(128,128): concurrency=8}`, the store retains `concurrency=16`. -/
theorem beststore_seed_and_no_downgrade :
    (∀ (fileRecords : List TestRecord) (k : Scenario) (b : TestRecord),
       (load_existing_bests fileRecords).get_best_for_io k = some b →
       b ∈ fileRecords ∧ b.ioKey = k) ∧
    (∀ (fileRecords : List TestRecord) (r : TestRecord), r ∈ fileRecords →
       ∃ b, (load_existing_bests fileRecords).get_best_for_io r.ioKey
              = some b ∧
            r.concurrency ≤ b.concurrency) ∧
    (∀ (w : OutputWriter) (r b : TestRecord),
       w.get_best_for_io r.ioKey = some b → r.concurrency ≤ b.concurrency →
       w.write_record r = w) ∧
    ((load_existing_bests [seeded16]).write_record lower8
        = load_existing_bests [seeded16] ∧
     ((load_existing_bests [seeded16]).write_record lower8).get_best_for_io
        (128, 128) = some seeded16) := by
  refine ⟨?_, ?_, ?_, by decide⟩
  · intro l k b h
    rcases load_foldl_sound l {} k b h with hres | hempty
    · exact hres
    · simp [dictGet] at hempty
  · intro l r hr
    exact load_mem_ge l {} r hr
  · intro w r b hb hc
    exact write_record_no_downgrade w r b hb (not_lt.mpr hc)

/-- C1: `update_best` accepts a record exactly when it satisfies the
threshold and either no best exists for its scenario or its concurrency
strictly exceeds the existing best's; consequently, once a best with
concurrency `C` is installed for some scenario, no record for that scenario
with concurrency `≤ C` is ever accepted later, regardless of how many
records (in any order) are processed in between. -/
theorem best_monotonic_in_concurrency :
    (∀ (s : ResultManager) (r : TestRecord) (t : Threshold),
       (s.update_best r t).1.1 = true ↔
         (satisfy r t = true ∧
          ∀ b, dictGet s.best r.ioKey = some b →
            b.concurrency < r.concurrency)) ∧
    (∀ (t : Threshold) (s : ResultManager) (b : TestRecord)
       (later : List TestRecord) (r : TestRecord),
       dictGet s.best r.ioKey = some b →
       ((run_updates t s later).update_best r t).1.1 = true →
       b.concurrency < r.concurrency) := by
  refine ⟨update_best_accepted_iff, ?_⟩
  intro t s b later r hb hacc
  obtain ⟨b₁, hb₁, h₁⟩ := run_updates_mono t later s r.ioKey b hb
  have hchar := (update_best_accepted_iff _ r t).mp hacc
  exact lt_of_le_of_lt h₁ (hchar.2 b₁ hb₁)

/-- C10 (refuting): `MonitorMode.__init__` constructs `ResultManager()`
without forwarding `--max-seen-size`, so the running tracker's cap is
always the default 10000 whatever cap was supplied; with a supplied cap of
5, six distinct records leave the dedup set at size 6 — eviction is NOT
triggered when the set exceeds the supplied cap. -/
theorem max_seen_size_flag_ignored :
    (∀ args : Args, (monitor_init args).rm.max_seen_size = 10000) ∧
    (run_monitor insertionEnum {} (monitor_init { max_seen_size := 5 })
        sixRecords).rm.seen.length = 6 ∧
    ¬ (run_monitor insertionEnum {} (monitor_init { max_seen_size := 5 })
        sixRecords).rm.seen.length ≤ 5 :=
  ⟨fun _ => rfl, by decide, by decide⟩

/-- C8 (refuting "evicts at least the oldest half"): `_cleanup_seen` keeps
`seen_list[len//2:]` where `seen_list = list(self.seen)` enumerates a
Python `set` in hash-table order, not insertion order.  For keys inserted
in the order (1,1,1), (2,2,2), (3,3,3), (10,20,30), (7,8,9), CPython's
`list(...)` enumerates them as (2,2,2), (3,3,3), (10,20,30), (7,8,9),
(1,1,1) — a permutation of the inserted keys — and the eviction at cap 4
then removes (2,2,2) and (3,3,3) while RETAINING the earliest-inserted key
(1,1,1): the evicted half is not the oldest half. -/
theorem cleanup_seen_not_oldest_half :
    cleanup_seen [(2,2,2), (3,3,3), (10,20,30), (7,8,9), (1,1,1)] 4
      = [(10,20,30), (7,8,9), (1,1,1)] ∧
    List.Perm [(2,2,2), (3,3,3), (10,20,30), (7,8,9), (1,1,1)]
      ([(1,1,1), (2,2,2), (3,3,3), (10,20,30), (7,8,9)] : List DedupKey) ∧
    (1,1,1) ∈ cleanup_seen [(2,2,2), (3,3,3), (10,20,30), (7,8,9), (1,1,1)] 4 ∧
    (2,2,2) ∉ cleanup_seen [(2,2,2), (3,3,3), (10,20,30), (7,8,9), (1,1,1)] 4 := by
  decide

/-- C9 (refuting): reading `partialFile` from offset 0 yields the one
complete record but advances the offset to 4 — the end of file, past the
partial tail `R`, whereas the fully-consumed bytes end at offset 3; after
the writer completes the second line, the next read from the stored offset
sees only the bytes `1\n` and decodes nothing: the record of the completed
line is lost, not retried, even though the completed line decodes fine. -/
theorem partial_line_not_retried :
    read_new_lines sampleDecoder partialFile 0 = (4, [sampleRecord]) ∧
    partialFile.length = 4 ∧
    completedFile = partialFile ++ ['1', '\n'] ∧
    sampleDecoder ['R', '1'] = some sampleRecord ∧
    read_new_lines sampleDecoder completedFile 4 = (6, []) := by
  decide

/-- C9 (amended): the offset after `read_new_lines` is always the end of
the bytes read — it advances past everything, including a trailing partial
line; consequently a subsequent call (after any append) decodes only the
newly appended bytes, so a line that failed to decode on one call is
discarded permanently rather than retried. -/
theorem read_new_lines_offset_eof :
    ∀ (dec : List Char → Option TestRecord) (s : List Char) (pos : Nat),
      (read_new_lines dec s pos).1 = s.length ∧
      (∀ ext : List Char,
        (read_new_lines dec (s ++ ext) (read_new_lines dec s pos).1).2
          = (read_new_lines dec ext 0).2) := by
  intro dec s pos
  refine ⟨rfl, ?_⟩
  intro ext
  have hlen : ¬ (s ++ ext).length < s.length := by simp
  simp [read_new_lines, hlen, List.drop_left]

/-- The coarse per-iteration model `bin_step` (used by the C3 development)
is the projection of `bin_step_io`: its `probeResult` is exactly the last
record of the re-read log. -/
theorem bin_step_io_projects (t : Threshold) (s : BinIoState)
    (appended : List TestRecord) :
    bin_step_io t s appended
      = { lo := (bin_step t { lo := s.lo, hi := s.hi,
                              best_record := s.best_record,
                              writer := s.writer }
                   ((s.log ++ appended).getLast?)).lo,
          hi := (bin_step t { lo := s.lo, hi := s.hi,
                              best_record := s.best_record,
                              writer := s.writer }
                   ((s.log ++ appended).getLast?)).hi,
          log := s.log ++ appended,
          best_record := (bin_step t { lo := s.lo, hi := s.hi,
                                       best_record := s.best_record,
                                       writer := s.writer }
                            ((s.log ++ appended).getLast?)).best_record,
          writer := (bin_step t { lo := s.lo, hi := s.hi,
                                  best_record := s.best_record,
                                  writer := s.writer }
                       ((s.log ++ appended).getLast?)).writer } := by
  cases hlast : (s.log ++ appended).getLast? with
  | none => simp [bin_step_io, bin_step, hlast]
  | some r =>
    by_cases hs : satisfy r t = true <;> simp [bin_step_io, bin_step, hlast, hs]

/-- C4 (refuting the failed-command clause): with `lo = 65`, `hi = 128`
(so `mid = 96`) and the append-only log still holding the previous probe's
satisfying record, an iteration whose external command FAILS (appends
nothing) re-drains that stale record — `reader.reset()` rewound the offset
to 0 — finds it satisfying, and ADVANCES `lo` to 97 with `hi` left at 128,
persisting the stale concurrency-64 record via the best store as the
outcome of probing 96; the claim says a failed-command iteration sets
`hi = mid − 1 = 95` and never advances `lo`. -/
theorem failed_command_reuses_stale_record :
    staleState.lo = 65 ∧ staleState.hi = 128 ∧
    (staleState.lo + staleState.hi) / 2 = 96 ∧
    (bin_step_io threshold_ttft100 staleState []).lo = 97 ∧
    (bin_step_io threshold_ttft100 staleState []).hi = 128 ∧
    (bin_step_io threshold_ttft100 staleState []).best_record
      = some (stubRecord 64) ∧
    (bin_step_io threshold_ttft100 staleState []).writer
      = OutputWriter.write_record {} (stubRecord 64) := by
  decide

/-- C4 (amended): one binary-search iteration, as a total function of what
the external command appended to the log — a non-zero exit is swallowed by
`run_batch` and surfaces as an empty append, never as a crash: if the
re-read log ends up empty (the command failed or wrote nothing AND no
earlier record exists), the iteration narrows `hi` to `mid − 1` and never
advances `lo`; otherwise it branches on the LAST record of the re-read
log — the fresh record when the command appended one, the previous probe's
stale record when the command failed over a non-empty log: a satisfying
last record is installed as running best, persisted via the best store,
and advances `lo` to `mid + 1`; a non-satisfying one narrows `hi` to
`mid − 1`. -/
theorem bin_step_io_cases :
    ∀ (t : Threshold) (s : BinIoState) (appended : List TestRecord),
      (s.log ++ appended = [] →
        bin_step_io t s appended
          = { s with log := s.log ++ appended,
                     hi := (s.lo + s.hi) / 2 - 1 }) ∧
      (∀ r, (s.log ++ appended).getLast? = some r → satisfy r t = true →
        bin_step_io t s appended
          = { s with log := s.log ++ appended,
                     best_record := some r,
                     writer := s.writer.write_record r,
                     lo := (s.lo + s.hi) / 2 + 1 }) ∧
      (∀ r, (s.log ++ appended).getLast? = some r → satisfy r t = false →
        bin_step_io t s appended
          = { s with log := s.log ++ appended,
                     hi := (s.lo + s.hi) / 2 - 1 }) ∧
      (appended = [] → s.log ≠ [] →
        (s.log ++ appended).getLast? = s.log.getLast?) := by
  intro t s appended
  refine ⟨?_, ?_, ?_, ?_⟩
  · intro h
    simp [bin_step_io, h]
  · intro r hlast hsat
    simp [bin_step_io, hlast, hsat]
  · intro r hlast hsat
    simp [bin_step_io, hlast, hsat]
  · intro h1 _
    simp [h1]

/-- C5: for a fresh (non-duplicate) record, the monitor loop appends a
signal-file payload exactly when `update_best` did not update, a best
exists for the record's scenario, and that best's concurrency is strictly
below the candidate's; the announced payload is built from the stored best,
never from the rejected candidate. -/
theorem signal_exactly_on_regression (t : Threshold) (m : MonitorState)
    (r : TestRecord) (enum : List DedupKey)
    (hfresh : (m.rm.add_record r enum).1 = true) :
    (process_record t m r enum).2.signals =
      (match ((m.rm.add_record r enum).2.update_best r t).1.1,
             ((m.rm.add_record r enum).2.update_best r t).2.get_best
               r.ioKey with
       | false, some b =>
         if b.concurrency < r.concurrency
         then m.signals ++ [SignalWriter.payloadOf b]
         else m.signals
       | _, _ => m.signals) := by
  rcases hA : m.rm.add_record r enum with ⟨fresh, rm₁⟩
  rw [hA] at hfresh
  simp only at hfresh
  subst hfresh
  rcases hU : rm₁.update_best r t with ⟨⟨updated, oldb⟩, rm₂⟩
  simp only [process_record, hA, hU]
  cases updated with
  | true => rfl
  | false =>
    cases hG : rm₂.get_best r.ioKey with
    | none => simp [hG]
    | some b =>
      by_cases hc : b.concurrency < r.concurrency <;> simp [hG, hc]

/-- Witness for C5: tracker best is `concurrency = 4` for `(64, 64)`; a
fresh non-satisfying candidate at concurrency 8 makes the loop announce
the stored best (4), not the candidate. -/
theorem signal_exactly_on_regression_witness :
    (process_record threshold_ttft100 monitorExample rejectedCandidate
        [(64, 64, 8)]).2.signals
      = [SignalWriter.payloadOf (recAt 4)] := by
  rw [signal_exactly_on_regression threshold_ttft100 monitorExample
    rejectedCandidate [(64, 64, 8)] (by decide)]
  decide

/-- Each binary-search iteration strictly shrinks `hi + 1 - lo`. -/
theorem bin_step_measure (t : Threshold) (pr : Option TestRecord)
    (s : BinState) (h : s.lo ≤ s.hi) :
    binMeasure (bin_step t s pr) < binMeasure s := by
  have h1 : s.lo ≤ (s.lo + s.hi) / 2 := by omega
  have h2 : (s.lo + s.hi) / 2 ≤ s.hi := by omega
  cases pr with
  | none =>
    simp only [bin_step, binMeasure]
    omega
  | some r =>
    by_cases hs : satisfy r t = true <;>
      simp only [bin_step, binMeasure, hs, if_pos, if_neg, Bool.false_eq_true,
        reduceIte] <;>
      omega

/-- One iteration preserves the binary-search invariant. -/
theorem bin_step_inv (t : Threshold) (probe : Int → Option TestRecord)
    (lo₀ hi₀ : Int)
    (hmono : ∀ c c', c ≤ c' → satAt t probe c' = true →
      satAt t probe c = true)
    (s : BinState) (hlh : s.lo ≤ s.hi)
    (hinv : binSearchInv t probe lo₀ hi₀ s) :
    binSearchInv t probe lo₀ hi₀
      (bin_step t s (probe ((s.lo + s.hi) / 2))) := by
  obtain ⟨ha, hb, hc, hd, he⟩ := hinv
  have hm1 : s.lo ≤ (s.lo + s.hi) / 2 := by omega
  have hm2 : (s.lo + s.hi) / 2 ≤ s.hi := by omega
  have notSatCase : satAt t probe ((s.lo + s.hi) / 2) = false →
      binSearchInv t probe lo₀ hi₀ { s with hi := (s.lo + s.hi) / 2 - 1 } := by
    intro hns
    unfold binSearchInv
    dsimp only
    refine ⟨ha, by omega, by omega, ?_, ?_⟩
    · intro c hc1 hc2
      by_cases hcs : c ≤ s.hi
      · cases hsc : satAt t probe c with
        | false => rfl
        | true =>
          have := hmono ((s.lo + s.hi) / 2) c (by omega) hsc
          rw [hns] at this
          cases this
      · exact hd c (by omega) hc2
    · rcases he with ⟨h1, h2⟩ | ⟨h1, h2, h3⟩
      · exact Or.inl ⟨h1, h2⟩
      · exact Or.inr ⟨h1, h2, h3⟩
  cases hp : probe ((s.lo + s.hi) / 2) with
  | none =>
    have hns : satAt t probe ((s.lo + s.hi) / 2) = false := by
      simp [satAt, hp]
    have hstep : bin_step t s none
        = { s with hi := (s.lo + s.hi) / 2 - 1 } := rfl
    rw [hstep]
    exact notSatCase hns
  | some r =>
    by_cases hs : satisfy r t = true
    · have hsat : satAt t probe ((s.lo + s.hi) / 2) = true := by
        simp [satAt, hp, hs]
      have hstep : bin_step t s (some r)
          = { s with best_record := some r,
                     writer := s.writer.write_record r,
                     lo := (s.lo + s.hi) / 2 + 1 } := by
        simp [bin_step, hs]
      rw [hstep]
      unfold binSearchInv
      dsimp only
      refine ⟨by omega, hb, by omega, hd, Or.inr ⟨?_, ?_, by omega⟩⟩
      · show some r = probe ((s.lo + s.hi) / 2 + 1 - 1)
        rw [show (s.lo + s.hi) / 2 + 1 - 1 = (s.lo + s.hi) / 2 by omega, hp]
      · show satAt t probe ((s.lo + s.hi) / 2 + 1 - 1) = true
        rw [show (s.lo + s.hi) / 2 + 1 - 1 = (s.lo + s.hi) / 2 by omega]
        exact hsat
    · have hns : satAt t probe ((s.lo + s.hi) / 2) = false := by
        simp only [satAt, hp]
        exact Bool.eq_false_iff.mpr hs
      have hstep : bin_step t s (some r)
          = { s with hi := (s.lo + s.hi) / 2 - 1 } := by
        simp [bin_step, hs]
      rw [hstep]
      exact notSatCase hns

/-- Running the loop with enough fuel reaches `lo > hi` while preserving
the invariant. -/
theorem bin_loop_inv (t : Threshold) (probe : Int → Option TestRecord)
    (lo₀ hi₀ : Int)
    (hmono : ∀ c c', c ≤ c' → satAt t probe c' = true →
      satAt t probe c = true) :
    ∀ (fuel : Nat) (s : BinState), binMeasure s ≤ fuel →
      binSearchInv t probe lo₀ hi₀ s →
      binSearchInv t probe lo₀ hi₀ (bin_loop t probe fuel s).1 ∧
      ¬ (bin_loop t probe fuel s).1.lo ≤ (bin_loop t probe fuel s).1.hi := by
  intro fuel
  induction fuel with
  | zero =>
    intro s hfuel hinv
    have hmeas : ¬ s.lo ≤ s.hi := by
      unfold binMeasure at hfuel
      omega
    exact ⟨hinv, hmeas⟩
  | succ n ih =>
    intro s hfuel hinv
    by_cases hlh : s.lo ≤ s.hi
    · have hstep := bin_step_inv t probe lo₀ hi₀ hmono s hlh hinv
      have hmeas := bin_step_measure t (probe ((s.lo + s.hi) / 2)) s hlh
      have hle : binMeasure (bin_step t s (probe ((s.lo + s.hi) / 2))) ≤ n := by
        omega
      have hres := ih _ hle hstep
      simpa [bin_loop, hlh] using hres
    · have hid : bin_loop t probe (n + 1) s = (s, 0) := by
        simp [bin_loop, hlh]
      rw [hid]
      exact ⟨hinv, hlh⟩

/-- The binary search terminates with `lo > hi` and its final best is the
probe result at the rightmost satisfying concurrency in range (or `none`
when nothing in range satisfies), provided satisfaction is monotonically
non-increasing in concurrency. -/
theorem bin_run_correct (t : Threshold) (probe : Int → Option TestRecord)
    (lo hi : Int)
    (hmono : ∀ c c', c ≤ c' → satAt t probe c' = true →
      satAt t probe c = true) :
    ¬ (bin_run t probe lo hi).1.lo ≤ (bin_run t probe lo hi).1.hi ∧
    (∀ m, lo ≤ m → m ≤ hi → satAt t probe m = true →
       (∀ c, lo ≤ c → c ≤ hi → satAt t probe c = true → c ≤ m) →
       (bin_run t probe lo hi).1.best_record = probe m) ∧
    ((∀ c, lo ≤ c → c ≤ hi → satAt t probe c = false) →
       (bin_run t probe lo hi).1.best_record = none) := by
  by_cases hinit : lo ≤ hi
  · have heq : bin_run t probe lo hi
        = bin_loop t probe ((hi + 1 - lo).toNat) { lo := lo, hi := hi } := rfl
    rw [heq]
    have hinv0 : binSearchInv t probe lo hi { lo := lo, hi := hi } := by
      unfold binSearchInv
      dsimp only
      exact ⟨le_refl _, le_refl _, by omega,
        fun c h1 h2 => absurd (lt_of_lt_of_le h1 h2) (lt_irrefl hi),
        Or.inl ⟨rfl, rfl⟩⟩
    obtain ⟨⟨ha, hb, hc, hd, he⟩, hterm⟩ :=
      bin_loop_inv t probe lo hi hmono ((hi + 1 - lo).toNat)
        { lo := lo, hi := hi } (le_refl _) hinv0
    refine ⟨hterm, ?_, ?_⟩
    · intro m hm1 hm2 hms hmax
      rcases he with ⟨hbest, hlo⟩ | ⟨hbest, hsat, hge⟩
      · exfalso
        have hf : satAt t probe m = false := hd m (by omega) hm2
        rw [hms] at hf
        cases hf
      · have hfl :
            (bin_loop t probe ((hi + 1 - lo).toNat)
              { lo := lo, hi := hi }).1.lo - 1 = m := by
          have hub := hmax _ hge (by omega) hsat
          have hlb : m ≤ (bin_loop t probe ((hi + 1 - lo).toNat)
              { lo := lo, hi := hi }).1.lo - 1 := by
            by_contra hcon
            have hf : satAt t probe m = false := hd m (by omega) hm2
            rw [hms] at hf
            cases hf
          omega
        rw [hbest, hfl]
    · intro hnone
      rcases he with ⟨hbest, _⟩ | ⟨hbest, hsat, hge⟩
      · exact hbest
      · exfalso
        have hf := hnone _ hge (by omega)
        rw [hsat] at hf
        cases hf
  · have h0 : (hi + 1 - lo).toNat = 0 := by omega
    have hrun : bin_run t probe lo hi = ({ lo := lo, hi := hi }, 0) := by
      unfold bin_run
      rw [h0]
      rfl
    rw [hrun]
    exact ⟨hinit, fun m h1 h2 _ _ => absurd (h1.trans h2) hinit,
      fun _ => rfl⟩

/-- C3: with integer bounds and per-probe satisfaction monotonically
non-increasing in concurrency, the loop terminates with `lo > hi` and the
final best is the probe result at the maximal satisfying concurrency in
range (or `none` if none satisfies); with bounds `[1, 128]` and the
deterministic stub that satisfies iff concurrency ≤ 64, it converges to
best = 64 in exactly 7 = ⌈log₂ 128⌉ probes. -/
theorem binary_search_rightmost (t : Threshold)
    (probe : Int → Option TestRecord) (lo hi : Int)
    (hmono : ∀ c c', c ≤ c' → satAt t probe c' = true →
      satAt t probe c = true) :
    (¬ (bin_run t probe lo hi).1.lo ≤ (bin_run t probe lo hi).1.hi ∧
     (∀ m, lo ≤ m → m ≤ hi → satAt t probe m = true →
        (∀ c, lo ≤ c → c ≤ hi → satAt t probe c = true → c ≤ m) →
        (bin_run t probe lo hi).1.best_record = probe m) ∧
     ((∀ c, lo ≤ c → c ≤ hi → satAt t probe c = false) →
        (bin_run t probe lo hi).1.best_record = none)) ∧
    ((bin_run threshold_ttft100 stubProbe 1 128).1.best_record
        = some (stubRecord 64) ∧
     (bin_run threshold_ttft100 stubProbe 1 128).2 = 7) :=
  ⟨bin_run_correct t probe lo hi hmono, by decide, by decide⟩

/-- The stub probe's satisfaction is `c ≤ 64`. -/
theorem satAt_stub (c : Int) :
    satAt threshold_ttft100 stubProbe c = decide (c ≤ 64) := by
  by_cases h : c ≤ 64 <;>
    simp [satAt, stubProbe, stubRecord, satisfy, metricOk, threshold_ttft100,
      h] <;>
    norm_num

/-- Witness for C3: the stub probe is monotone, and the search over
`[1, 128]` lands on the stub record at concurrency 64 after 7 probes. -/
theorem binary_search_rightmost_witness :
    ((bin_run threshold_ttft100 stubProbe 1 128).1.best_record
        = some (stubRecord 64) ∧
     (bin_run threshold_ttft100 stubProbe 1 128).2 = 7) :=
  (binary_search_rightmost threshold_ttft100 stubProbe 1 128
    (fun c c' hcc hsat => by
      rw [satAt_stub] at *
      simp only [decide_eq_true_eq] at *
      omega)).2

end AutoBatchSelector
